import Mathlib

/-!
Verification development for the shtola static-site build pipeline
(crates `shtola`, `shtola-markdown` and `ware`).

The embedding models:
* the persistent file-state mapping used by the pipeline (`im::HashMap`)
  together with its two combinators `union` and `difference`, as association
  lists observed through first-match `lookup`;
* the `ware` middleware chain (`Ware::new`, `Ware::wrap`, `Ware::run`);
* the front-matter lexer (`shtola/src/frontmatter.rs`) on lists of
  characters, with `Option` encoding the `unwrap` panic;
* the per-file read logic and the fail-fast `read_dir` loop, the
  clean/read/run/write sequencing of `Shtola::build`, and the `write_dir`
  output pass;
* the bundled Markdown stage (`shtola-markdown/src/lib.rs`) with its
  extension handling;
* the `Shtola::ignores` setter (`Vec::append` followed by `Vec::dedup`).
-/

/-- Relative file paths (`PathBuf`), modelled as their character sequence. -/
abbrev RelPath := List Char

/-- JSON values (`serde_json::Value`), used for front matter and metadata. -/
inductive Json : Type where
  | null : Json
  | bool (b : Bool) : Json
  | num (n : Int) : Json
  | str (s : String) : Json
  | arr (xs : List Json) : Json
  | obj (fields : List (String × Json)) : Json

/-- Shtola's file representation `ShFile`: parsed front matter plus the file
contents with front matter stripped (`Vec<u8>`, modelled as the character
sequence the bytes decode from). -/
structure ShFile : Type where
  frontmatter : Json
  content : List Char

/-- `ShFile::empty`: the tombstone record with null front matter and empty
content. -/
def ShFile.empty : ShFile :=
  { frontmatter := Json.null, content := [] }

/-- Key membership for an association-list map reading of `im::HashMap`. -/
def containsKey {α β : Type} [DecidableEq α] (k : α) : List (α × β) → Bool
  | [] => false
  | (k₁, _) :: rest => if k = k₁ then true else containsKey k rest

/-- Value lookup (`im::HashMap::get`): the first entry with the given key. -/
def lookup {α β : Type} [DecidableEq α] (k : α) : List (α × β) → Option β
  | [] => none
  | (k₁, v) :: rest => if k = k₁ then some v else lookup k rest

/-- `im::HashMap::insert`: bind `k` to `v`, replacing any previous binding. -/
def insertKey {α β : Type} [DecidableEq α] (k : α) (v : β)
    (m : List (α × β)) : List (α × β) :=
  (k, v) :: m.filter (fun p => !(decide (p.1 = k)))

/-- `im::HashMap::union`, invoked as `a.union(b)`: every key of both maps,
keeping the values from the left (current) map when a key exists in both —
this is the bias the im crate documents and that shtola's `write_works` test
relies on (`update_hash.union(ir.files)` keeps the updated contents). -/
def union {α β : Type} [DecidableEq α] (a b : List (α × β)) : List (α × β) :=
  a ++ b.filter (fun p => !containsKey p.1 a)

/-- `im::HashMap::difference`, invoked as `a.difference(b)`: the im crate
documents this method as the *symmetric* difference of the two maps (it was
later renamed to `symmetric_difference`), i.e. the entries whose key occurs
in exactly one operand, with that operand's value.  Both shtola call sites
depend on this symmetry: `shtola/src/lib.rs` differences a small deletion
map against the incoming files with the deletion map on the left, while
`shtola-markdown/src/lib.rs` differences the combined map against the
removal map with the removal map on the right. -/
def difference {α β : Type} [DecidableEq α] (a b : List (α × β)) :
    List (α × β) :=
  a.filter (fun p => !containsKey p.1 b) ++ b.filter (fun p => !containsKey p.1 a)

/-- The build configuration (`Config` in `shtola/src/lib.rs`). -/
structure Config : Type where
  ignores : List String
  source : RelPath
  destination : RelPath
  clean : Bool
  frontmatter : Bool

/-- `impl Default for Config`. -/
def Config.defaultConfig : Config :=
  { ignores := []
  , source := ['.']
  , destination := ['.', '/', 'd', 'e', 's', 't']
  , clean := false
  , frontmatter := true }

/-- The intermediate representation `IR` threaded through plugins: file
state, configuration and global metadata. -/
structure IRModel : Type where
  files : List (RelPath × ShFile)
  config : Config
  metadata : List (String × Json)

/-- The `ware` middleware chain `Ware<R>`: a list of boxed functions. -/
structure Ware (R : Type) : Type where
  fns : List (R → R)

/-- `Ware::new`: the empty chain. -/
def Ware.new {R : Type} : Ware R :=
  { fns := [] }

/-- `Ware::wrap`: push a function onto the end of the internal list. -/
def Ware.wrap {R : Type} (w : Ware R) (f : R → R) : Ware R :=
  { fns := w.fns ++ [f] }

/-- `Ware::run`: fold the function list over the argument, left to right. -/
def Ware.run {R : Type} (w : Ware R) (arg : R) : R :=
  w.fns.foldl (fun acc func => func acc) arg

/-- Index of the first occurrence of `pat` as a contiguous subsequence
(`str::find` on the byte/character sequence). -/
def findSub (pat : List Char) : List Char → Option Nat
  | [] => if pat.isPrefixOf ([] : List Char) then some 0 else none
  | c :: rest =>
      if pat.isPrefixOf (c :: rest) then some 0
      else (findSub pat rest).map (fun i => i + 1)

/-- `str::trim`: strip whitespace from both ends. -/
def trim (l : List Char) : List Char :=
  ((l.dropWhile Char.isWhitespace).reverse.dropWhile Char.isWhitespace).reverse

/-- The front-matter marker line `"---\n"`. -/
def marker : List Char :=
  '-' :: '-' :: '-' :: '\n' :: []

/-- The front-matter lexer (`frontmatter::lexer`).  On input starting with
`"---\n"` it searches `text[4..]` for the closing `"---\n"`; the Rust code
calls `.unwrap()` on that search, so a missing closing marker is a panic,
modelled as `none`.  Otherwise it returns the trimmed header slice
`text[4 .. markerEnd+4]` and trimmed body slice `text[markerEnd+8 ..]`; with
no leading marker it returns an empty header and the text unchanged. -/
def lexer (text : List Char) : Option (List Char × List Char) :=
  if marker.isPrefixOf text then
    match findSub marker (text.drop 4) with
    | none => none
    | some markerEnd =>
        some (trim ((text.drop 4).take markerEnd),
              trim (text.drop (markerEnd + 2 * 4)))
  else
    some ([], text)

/-- Split a character sequence into lines at `'\n'`. -/
def splitLines : List Char → List (List Char)
  | [] => [[]]
  | c :: rest =>
      match splitLines rest with
      | [] => [[]]
      | line :: more =>
          if c = '\n' then [] :: line :: more else (c :: line) :: more

/-- Parse one `key: value` front-matter line into a JSON object field. -/
def parseLine (line : List Char) : Option (String × Json) :=
  match findSub (':' :: ' ' :: []) line with
  | none => none
  | some i => some (String.mk (line.take i), Json.str (String.mk (line.drop (i + 2))))

/-- Modelled from the spec: `frontmatter::to_json` is invoked by `read_dir`
(`shtola/src/lib.rs` line 264) but its definition is not among the sources
(`frontmatter.rs` only defines `lexer` and `to_yaml`).  Following the spec's
front-matter round trip — header text `key: value` decodes to a mapping
`key -> "value"`, and an empty header yields empty/null front matter — the
header is read as a JSON object of one string field per `key: value` line,
and the empty header becomes `null`. -/
def to_json (matter : List Char) : Json :=
  if matter = [] then Json.null
  else Json.obj ((splitLines matter).filterMap parseLine)

/-- Per-file record construction inside `read_dir` (`shtola/src/lib.rs`
lines 258-274): with front matter enabled, lex the text (propagating the
lexer's panic) and decode the header; otherwise keep the raw text with null
front matter. -/
def readFileRecord (fm : Bool) (text : List Char) : Option ShFile :=
  if fm then
    (lexer text).map (fun mc => { frontmatter := to_json mc.1, content := mc.2 })
  else
    some { frontmatter := Json.null, content := text }

/-- What the filesystem yields for one walked source file: `fs::File::open`
can fail, `read_to_string` can fail (an I/O error or content that is not
valid UTF-8, both surfaced as an `std::io::Error`), or the file reads as
text. -/
inductive FileOutcome : Type where
  | openErr (code : Nat) : FileOutcome
  | readErr (code : Nat) : FileOutcome
  | text (content : List Char) : FileOutcome

/-- Errors a build can abort with: an `std::io::Error` propagated with `?`,
or a panic (an `unwrap`/`expect` failure that unwinds out of the build). -/
inductive BuildErr : Type where
  | ioErr (code : Nat) : BuildErr
  | panic : BuildErr

/-- The failure, if any, that processing one file raises inside `read_dir`:
open and read errors propagate as I/O errors; with front matter enabled, a
text whose lexing panics (leading marker, no closing marker) panics. -/
def readFailure (fm : Bool) : FileOutcome → Option BuildErr
  | .openErr code => some (.ioErr code)
  | .readErr code => some (.ioErr code)
  | .text content =>
      match fm, lexer content with
      | true, none => some .panic
      | _, _ => none

/-- The `read_dir` loop (`shtola/src/lib.rs` lines 251-278): walk the
filtered entries in order, reading and lexing each file and inserting its
record into the result map; the first failing file aborts the whole loop
with its error (`?` on open/read, panic in the lexer), producing no map at
all. -/
def read_dir (fm : Bool) :
    List (RelPath × FileOutcome) → List (RelPath × ShFile) →
    Except BuildErr (List (RelPath × ShFile))
  | [], acc => .ok acc
  | (_, .openErr code) :: _, _ => .error (.ioErr code)
  | (_, .readErr code) :: _, _ => .error (.ioErr code)
  | (path, .text content) :: rest, acc =>
      match readFileRecord fm content with
      | none => .error .panic
      | some file => read_dir fm rest (insertKey path file acc)

/-- Index of the last occurrence of a character. -/
def lastIndexOf (c : Char) : List Char → Option Nat
  | [] => none
  | c₁ :: rest =>
      match lastIndexOf c rest with
      | some i => some (i + 1)
      | none => if c₁ = c then some 0 else none

/-- Index right after the last `'/'` — the start of the file name
component (`Path::file_name`). -/
def fileNameStart (p : RelPath) : Nat :=
  match lastIndexOf '/' p with
  | none => 0
  | some i => i + 1

/-- Index of the `'.'` starting the extension of the file name, when the
path has one (`Path::extension` is `None` when the file name holds no dot,
or only a leading dot). -/
def extDotIndex (p : RelPath) : Option Nat :=
  match lastIndexOf '.' p with
  | none => none
  | some i => if i ≤ fileNameStart p then none else some i

/-- `Path::extension`: the portion of the file name after its last `'.'`,
if any (and the dot is not the leading character of the file name). -/
def extension (p : RelPath) : Option (List Char) :=
  (extDotIndex p).map (fun i => p.drop (i + 1))

/-- `PathBuf::set_extension`: replace the extension when one exists,
append one otherwise. -/
def setExtension (p : RelPath) (ext : List Char) : RelPath :=
  match extDotIndex p with
  | none => p ++ '.' :: ext
  | some i => p.take i ++ '.' :: ext

/-- The extension filter at the head of the Markdown plugin
(`shtola-markdown/src/lib.rs` lines 9-12): the `for` loop drives the filter
over every entry, and the filter evaluates `p.extension().unwrap() == "md"`
on each, so an entry without an extension panics (`none`) before any
selection happens for it. -/
def filterMd : List (RelPath × ShFile) → Option (List (RelPath × ShFile))
  | [] => some []
  | (path, file) :: rest =>
      match extension path with
      | none => none
      | some ext =>
          match filterMd rest with
          | none => none
          | some selected =>
              if ext = 'm' :: 'd' :: [] then some ((path, file) :: selected)
              else some selected

/-- The Markdown plugin body (`shtola-markdown/src/lib.rs`): select the
`.md` files (panicking on any extension-less path), build a removal map of
their paths with tombstone values and an update map of the rendered `.html`
records, and combine with `update.union(ir.files).difference(removal)`.
`render` abstracts `markdown_to_html` over the decoded content, an external
collaborator. -/
def mdPlugin (render : List Char → List Char) (ir : IRModel) :
    Option IRModel :=
  match filterMd ir.files with
  | none => none
  | some mdFiles =>
      let removal := mdFiles.map (fun pf => (pf.1, ShFile.empty))
      let update := mdFiles.map (fun pf =>
        (setExtension pf.1 ('h' :: 't' :: 'm' :: 'l' :: []),
         { frontmatter := pf.2.frontmatter, content := render pf.2.content : ShFile }))
      some { ir with files := difference (union update ir.files) removal }

/-- One write performed by `write_dir` for one file record: the
`create_dir_all` of the parent directory plus the file creation with its
content bytes. -/
structure WriteOp : Type where
  dirCreated : RelPath
  filePath : RelPath
  bytes : List Char

/-- `PathBuf::join` of the destination root and a relative path. -/
def joinPath (dest p : RelPath) : RelPath :=
  dest ++ '/' :: p

/-- `Path::parent`: the path up to the last separator. -/
def parentDir (p : RelPath) : RelPath :=
  match lastIndexOf '/' p with
  | none => []
  | some i => p.take i

/-- `write_dir` (`shtola/src/lib.rs` lines 281-290): for every entry of the
final file state, create the parent directory of `dest.join(path)` and
write the record's content bytes verbatim there. -/
def write_dir (files : List (RelPath × ShFile)) (dest : RelPath) :
    List WriteOp :=
  files.map (fun pf =>
    { dirCreated := parentDir (joinPath dest pf.1)
    , filePath := joinPath dest pf.1
    , bytes := pf.2.content })

/-- `std::io::ErrorKind::NotFound`, the error `fs::remove_dir_all` returns
when the directory to remove does not exist. -/
def notFoundCode : Nat := 2

/-- The filesystem state a build runs against: whether the destination
directory exists, whether removing it would fail with some other I/O error,
whether recreating it succeeds, and the source walk (already filtered by
the ignore glob set, an external collaborator). -/
structure FsState : Type where
  destExists : Bool
  removeErr : Option Nat
  recreateOk : Bool
  entries : List (RelPath × FileOutcome)

/-- The clean phase of `Shtola::build` (`shtola/src/lib.rs` lines
132-139): when the clean flag is set, `fs::remove_dir_all(destination)?` —
which fails with `NotFound` when the destination does not exist — then
`fs::create_dir_all(destination).expect(..)`, a panic on failure.  Without
the flag, nothing happens. -/
def cleanStep (cfg : Config) (fs : FsState) : Except BuildErr Unit :=
  if cfg.clean then
    match fs.destExists, fs.removeErr with
    | false, _ => .error (.ioErr notFoundCode)
    | true, some code => .error (.ioErr code)
    | true, none => if fs.recreateOk then .ok () else .error .panic
  else
    .ok ()

/-- The read/run/write tail of `Shtola::build` (`shtola/src/lib.rs` lines
141-158): read the source entries into the file state, run the middleware
chain on the populated IR, and write the resulting file state out. -/
def runBuildSteps (stages : List (IRModel → IRModel)) (cfg : Config)
    (entries : List (RelPath × FileOutcome)) :
    Except BuildErr (IRModel × List WriteOp) := do
  let files ← read_dir cfg.frontmatter entries []
  let ir : IRModel := { files := files, config := cfg, metadata := [] }
  let result := Ware.run { fns := stages } ir
  pure (result, write_dir result.files cfg.destination)

/-- `Shtola::build`: the clean phase, then read, run and write; the first
error of any phase aborts the rest. -/
def build (stages : List (IRModel → IRModel)) (cfg : Config)
    (fs : FsState) : Except BuildErr (IRModel × List WriteOp) := do
  let _ ← cleanStep cfg fs
  runBuildSteps stages cfg fs.entries

/-- `Vec::dedup` (used by `Shtola::ignores`): remove *consecutive* equal
elements, keeping one element per run (for equal strings, keeping the first
or the last of a run yields the same list). -/
def dedup : List String → List String
  | [] => []
  | a :: rest =>
      match rest with
      | [] => [a]
      | b :: _ => if a = b then dedup rest else a :: dedup rest

/-- `Shtola::ignores` (`shtola/src/lib.rs` lines 79-82): append the new
patterns to the stored list, then `Vec::dedup` the result. -/
def ignoresUpdate (current incoming : List String) : List String :=
  dedup (current ++ incoming)

/-- The ignore list stored after a sequence of `Shtola::ignores` calls,
starting from the default empty list. -/
def ignoresRuns (calls : List (List String)) : List String :=
  calls.foldl ignoresUpdate []

/-- Whether a list is free of *adjacent* equal elements. -/
def noAdjacentDup : List String → Bool
  | [] => true
  | [_] => true
  | a :: b :: rest => (a != b) && noAdjacentDup (b :: rest)

/-- Whether a list is free of duplicates at *any* pair of positions (the
property the spec asserts of the ignore list). -/
def noDupPatterns : List String → Bool
  | [] => true
  | a :: rest => !rest.contains a && noDupPatterns rest

theorem containsKey_eq_isSome {α β : Type} [DecidableEq α] (k : α) :
    ∀ l : List (α × β), containsKey k l = (lookup k l).isSome
  | [] => rfl
  | (k₁, _) :: rest => by
      by_cases h : k = k₁
      · simp [containsKey, lookup, h]
      · simp [containsKey, lookup, h, containsKey_eq_isSome k rest]

theorem lookup_append_some {α β : Type} [DecidableEq α] {k : α} {v : β} :
    ∀ {a : List (α × β)} (b : List (α × β)),
      lookup k a = some v → lookup k (a ++ b) = some v
  | [], _, h => by simp [lookup] at h
  | (k₁, v₁) :: rest, b, h => by
      by_cases hk : k = k₁
      · simp [lookup, hk] at h ⊢
        exact h
      · simp [lookup, hk] at h ⊢
        exact lookup_append_some b h

theorem lookup_append_none {α β : Type} [DecidableEq α] {k : α} :
    ∀ {a : List (α × β)} (b : List (α × β)),
      lookup k a = none → lookup k (a ++ b) = lookup k b
  | [], _, _ => by simp [lookup]
  | (k₁, v₁) :: rest, b, h => by
      by_cases hk : k = k₁
      · simp [lookup, hk] at h
      · simp [lookup, hk] at h ⊢
        exact lookup_append_none b h

theorem lookup_filter_key {α β : Type} [DecidableEq α] (k : α) (q : α → Bool) :
    ∀ l : List (α × β),
      lookup k (l.filter (fun p => q p.1)) =
        if q k = true then lookup k l else none
  | [] => by cases hq : q k <;> simp [lookup, hq]
  | (k₁, v₁) :: rest => by
      by_cases hk : k = k₁
      · subst hk
        cases hq : q k <;>
          simp [List.filter, lookup, hq, lookup_filter_key k q rest]
      · cases hq1 : q k₁ <;>
          cases hq : q k <;>
            simp [List.filter, lookup, hq1, hq, hk, lookup_filter_key k q rest]

theorem containsKey_append {α β : Type} [DecidableEq α] (k : α) :
    ∀ (a b : List (α × β)),
      containsKey k (a ++ b) = (containsKey k a || containsKey k b)
  | [], _ => rfl
  | (k₁, _) :: rest, b => by
      by_cases hk : k = k₁ <;>
        simp [containsKey, hk, containsKey_append k rest b]

theorem containsKey_filter_key {α β : Type} [DecidableEq α] (k : α)
    (q : α → Bool) :
    ∀ l : List (α × β),
      containsKey k (l.filter (fun p => q p.1)) = (q k && containsKey k l)
  | [] => by cases hq : q k <;> simp [containsKey, hq]
  | (k₁, _) :: rest => by
      by_cases hk : k = k₁
      · subst hk
        cases hq : q k <;>
          simp [List.filter, containsKey, hq, containsKey_filter_key k q rest]
      · cases hq1 : q k₁ <;>
          simp [List.filter, containsKey, hq1, hk,
                containsKey_filter_key k q rest]

theorem readFileRecord_isSome {fm : Bool} {t : List Char} :
    readFailure fm (.text t) = none → ∃ f, readFileRecord fm t = some f := by
  intro h
  cases fm with
  | false => exact ⟨_, rfl⟩
  | true =>
      cases hx : lexer t with
      | none => simp [readFailure, hx] at h
      | some mc =>
          exact ⟨{ frontmatter := to_json mc.1, content := mc.2 },
                 by simp [readFileRecord, hx]⟩

theorem read_dir_first_error {fm : Bool} :
    ∀ (pre : List (RelPath × FileOutcome)) {p : RelPath} {out : FileOutcome}
      {rest : List (RelPath × FileOutcome)} {e : BuildErr}
      (acc : List (RelPath × ShFile)),
      (∀ q o, (q, o) ∈ pre → readFailure fm o = none) →
      readFailure fm out = some e →
      read_dir fm (pre ++ (p, out) :: rest) acc = .error e
  | [], p, out, rest, e, acc, _, hout => by
      cases out with
      | openErr code =>
          simp [readFailure] at hout
          simp [read_dir, hout]
      | readErr code =>
          simp [readFailure] at hout
          simp [read_dir, hout]
      | text content =>
          cases hfm : fm with
          | false => simp [readFailure, hfm] at hout
          | true =>
              subst hfm
              cases hx : lexer content with
              | none =>
                  simp [readFailure, hx] at hout
                  simp [read_dir, readFileRecord, hx, hout]
              | some mc => simp [readFailure, hx] at hout
  | (q, o) :: pre, p, out, rest, e, acc, hpre, hout => by
      have ho : readFailure fm o = none := hpre q o (List.mem_cons_self _ _)
      have hpre' : ∀ q' o', (q', o') ∈ pre → readFailure fm o' = none :=
        fun q' o' h => hpre q' o' (List.mem_cons_of_mem _ h)
      cases o with
      | openErr code => simp [readFailure] at ho
      | readErr code => simp [readFailure] at ho
      | text content =>
          obtain ⟨f, hf⟩ := readFileRecord_isSome ho
          show read_dir fm (((q, .text content) :: pre) ++ (p, out) :: rest) acc = .error e
          simp only [List.cons_append, read_dir, hf]
          exact read_dir_first_error pre _ hpre' hout

theorem dedup_cons_cons (a b : String) (rest : List String) :
    dedup (a :: b :: rest) =
      if a = b then dedup (b :: rest) else a :: dedup (b :: rest) := rfl

theorem dedup_head :
    ∀ (l : List String) (a : String), ∃ t, dedup (a :: l) = a :: t
  | [], a => ⟨[], rfl⟩
  | b :: rest, a => by
      rw [dedup_cons_cons]
      by_cases h : a = b
      · obtain ⟨t, ht⟩ := dedup_head rest b
        exact ⟨t, by rw [if_pos h, ht, h]⟩
      · exact ⟨dedup (b :: rest), by rw [if_neg h]⟩

theorem dedup_noAdjacentDup :
    ∀ l : List String, noAdjacentDup (dedup l) = true
  | [] => rfl
  | [a] => rfl
  | a :: b :: rest => by
      rw [dedup_cons_cons]
      by_cases h : a = b
      · rw [if_pos h]
        exact dedup_noAdjacentDup (b :: rest)
      · rw [if_neg h]
        obtain ⟨t, ht⟩ := dedup_head rest b
        have hrec := dedup_noAdjacentDup (b :: rest)
        rw [ht] at hrec
        rw [ht]
        show noAdjacentDup (a :: b :: t) = true
        simp only [noAdjacentDup, Bool.and_eq_true, bne_iff_ne, ne_eq]
        exact ⟨h, hrec⟩

theorem foldl_ignoresUpdate_noAdjacentDup :
    ∀ (calls : List (List String)) (acc : List String),
      noAdjacentDup acc = true →
      noAdjacentDup (List.foldl ignoresUpdate acc calls) = true
  | [], acc, h => h
  | c :: cs, acc, _ => by
      simp only [List.foldl]
      exact foldl_ignoresUpdate_noAdjacentDup cs (ignoresUpdate acc c)
        (dedup_noAdjacentDup (acc ++ c))

theorem findSub_eq_none_iff (pat : List Char) :
    ∀ l : List Char,
      findSub pat l = none ↔ ∀ i, pat.isPrefixOf (l.drop i) = false
  | [] => by
      cases h : pat.isPrefixOf ([] : List Char) with
      | true =>
          simp only [findSub, h, if_true]
          constructor
          · intro hx; exact absurd hx (by simp)
          · intro hall; have := hall 0; simp [h] at this
      | false =>
          simp only [findSub, h, if_false]
          constructor
          · intro _ i; simpa [List.drop_nil] using h
          · intro _; rfl
  | c :: rest => by
      cases h : pat.isPrefixOf (c :: rest) with
      | true =>
          simp only [findSub, h, if_true]
          constructor
          · intro hx; exact absurd hx (by simp)
          · intro hall; have := hall 0; simp [h] at this
      | false =>
          simp only [findSub, h, if_false]
          constructor
          · intro hx i
            have hrest : findSub pat rest = none := by
              cases hy : findSub pat rest with
              | none => rfl
              | some j => rw [hy] at hx; simp [Option.map] at hx
            have hall := (findSub_eq_none_iff pat rest).mp hrest
            cases i with
            | zero => simpa using h
            | succ i => simpa using hall i
          · intro hall
            have : ∀ i, pat.isPrefixOf (rest.drop i) = false := by
              intro i
              simpa using hall (i + 1)
            rw [(findSub_eq_none_iff pat rest).mpr this]
            rfl

theorem filterMd_eq_none_iff :
    ∀ files : List (RelPath × ShFile),
      filterMd files = none ↔ ∃ p f, (p, f) ∈ files ∧ extension p = none
  | [] => by simp [filterMd]
  | (path, file) :: rest => by
      cases hx : extension path with
      | none =>
          simp only [filterMd, hx]
          constructor
          · intro _
            exact ⟨path, file, List.mem_cons_self _ _, hx⟩
          · intro _; trivial
      | some ext =>
          cases hr : filterMd rest with
          | none =>
              simp only [filterMd, hx, hr]
              constructor
              · intro _
                obtain ⟨p, f, hmem, hext⟩ := (filterMd_eq_none_iff rest).mp hr
                exact ⟨p, f, List.mem_cons_of_mem _ hmem, hext⟩
              · intro _; trivial
          | some selected =>
              simp only [filterMd, hx, hr]
              constructor
              · intro hcontra
                by_cases he : ext = 'm' :: 'd' :: [] <;> simp [he] at hcontra
              · rintro ⟨p, f, hmem, hext⟩
                rcases List.mem_cons.mp hmem with heq | hmem2
                · cases heq
                  rw [hx] at hext
                  exact absurd hext (by simp)
                · have hnone := (filterMd_eq_none_iff rest).mpr ⟨p, f, hmem2, hext⟩
                  rw [hnone] at hr
                  exact absurd hr (by simp)

/-- C1 counterexample: the claim states that `difference(A, B)` contains no
key from A, for every pair of mappings.  With `A = [a.md -> empty]` and
`B = []`, `im::HashMap::difference` (a symmetric difference) returns A
itself, which contains A's key `a.md` — where the claim predicts a mapping
containing exactly the keys of B not in A, i.e. the empty mapping. -/
theorem c1_counterexample :
    difference [("a.md".toList, ShFile.empty)] ([] : List (RelPath × ShFile)) =
      [("a.md".toList, ShFile.empty)]
    ∧ containsKey ("a.md".toList)
        (difference [("a.md".toList, ShFile.empty)]
          ([] : List (RelPath × ShFile))) = true :=
  ⟨rfl, rfl⟩

/-- C1 (amended): `difference(A, B)` is the *symmetric* difference: it
contains exactly the keys occurring in exactly one of A and B, with that
operand's original value — in particular, when every key of A also occurs
in B (the deletion idiom), it equals B with A's keys removed, regardless of
A's values. -/
theorem c1_difference_symmetric :
    ∀ (a b : List (RelPath × ShFile)) (k : RelPath),
      containsKey k (difference a b) =
        Bool.xor (containsKey k a) (containsKey k b)
      ∧ lookup k (difference a b) =
          (if containsKey k a = true then
             (if containsKey k b = true then none else lookup k a)
           else lookup k b) := by
  intro a b k
  constructor
  · rw [difference, containsKey_append,
        containsKey_filter_key k (fun x => !containsKey x b) a,
        containsKey_filter_key k (fun x => !containsKey x a) b]
    cases ha : containsKey k a <;> cases hb : containsKey k b <;> simp [ha, hb]
  · cases ha : containsKey k a with
    | true =>
        have hsome : (lookup k a).isSome = true := by
          rw [← containsKey_eq_isSome, ha]
        obtain ⟨v, hv⟩ := Option.isSome_iff_exists.mp hsome
        cases hb : containsKey k b with
        | true =>
            have hfa : lookup k (a.filter (fun p => !containsKey p.1 b)) = none := by
              rw [lookup_filter_key k (fun x => !containsKey x b) a]
              simp [hb]
            have hfb : lookup k (b.filter (fun p => !containsKey p.1 a)) = none := by
              rw [lookup_filter_key k (fun x => !containsKey x a) b]
              simp [ha]
            rw [difference, lookup_append_none _ hfa, hfb]
            simp
        | false =>
            have hfa : lookup k (a.filter (fun p => !containsKey p.1 b)) = some v := by
              rw [lookup_filter_key k (fun x => !containsKey x b) a]
              simp [hb, hv]
            rw [difference, lookup_append_some _ hfa]
            simp [hv]
    | false =>
        have hla : lookup k a = none := by
          cases hl : lookup k a with
          | none => rfl
          | some v =>
              rw [containsKey_eq_isSome, hl] at ha
              simp at ha
        have hfa : lookup k (a.filter (fun p => !containsKey p.1 b)) = none := by
          rw [lookup_filter_key k (fun x => !containsKey x b) a]
          simp [hla]
        rw [difference, lookup_append_none _ hfa,
            lookup_filter_key k (fun x => !containsKey x a) b]
        simp [ha]

/-- C2: `union(A, B)` contains every key of A and every key of B, and on a
key present in both mappings the left operand's value wins
(`union(A, B)[k] = A[k]`), as `im::HashMap::union` documents and the
`write_works` test relies on. -/
theorem c2_union_left_bias :
    ∀ (a b : List (RelPath × ShFile)) (k : RelPath),
      containsKey k (union a b) = (containsKey k a || containsKey k b)
      ∧ lookup k (union a b) =
          (if containsKey k a = true then lookup k a else lookup k b) := by
  intro a b k
  constructor
  · rw [union, containsKey_append,
        containsKey_filter_key k (fun x => !containsKey x a) b]
    cases ha : containsKey k a <;> cases hb : containsKey k b <;> simp [ha, hb]
  · cases ha : containsKey k a with
    | true =>
        have hsome : (lookup k a).isSome = true := by
          rw [← containsKey_eq_isSome, ha]
        obtain ⟨v, hv⟩ := Option.isSome_iff_exists.mp hsome
        rw [union, lookup_append_some _ hv]
        simp [hv]
    | false =>
        have hla : lookup k a = none := by
          cases hl : lookup k a with
          | none => rfl
          | some v =>
              rw [containsKey_eq_isSome, hl] at ha
              simp at ha
        rw [union, lookup_append_none _ hla,
            lookup_filter_key k (fun x => !containsKey x a) b]
        simp [ha]

/-- C3: the middleware chain executes registered stages in registration
order as a left fold — with stages `f` then `g` registered,
`run(ir) = g(f(ir))` — and with no stage registered `run` is the identity
on the IR. -/
theorem c3_chain_composition :
    ∀ (f g : IRModel → IRModel) (ir : IRModel),
      Ware.run (Ware.wrap (Ware.wrap (Ware.new : Ware IRModel) f) g) ir = g (f ir)
      ∧ Ware.run (Ware.new : Ware IRModel) ir = ir :=
  fun f g ir => ⟨rfl, rfl⟩

/-- C4: during the read step of `build`, any per-file failure — an
unreadable file, content that is not valid UTF-8 (both I/O errors on
open/read), or a malformed front-matter header (a lexer panic) — aborts the
whole build with the first encountered error: every earlier file was clean,
nothing after the failing file is considered, no partial file-state is
produced (the result is an error, not a mapping), and no errors are
aggregated. -/
theorem c4_read_error_aborts_build :
    ∀ (stages : List (IRModel → IRModel)) (cfg : Config) (fs : FsState)
      (pre : List (RelPath × FileOutcome)) (p : RelPath) (out : FileOutcome)
      (rest : List (RelPath × FileOutcome)) (e : BuildErr),
      cleanStep cfg fs = .ok () →
      fs.entries = pre ++ (p, out) :: rest →
      (∀ q o, (q, o) ∈ pre → readFailure cfg.frontmatter o = none) →
      readFailure cfg.frontmatter out = some e →
      build stages cfg fs = .error e := by
  intro stages cfg fs pre p out rest e hclean hentries hpre hout
  have hread :
      read_dir cfg.frontmatter (pre ++ (p, out) :: rest) [] = .error e :=
    read_dir_first_error pre ([] : List (RelPath × ShFile)) hpre hout
  unfold build runBuildSteps
  rw [hclean, hentries, hread]
  rfl

/-- Witness for C4: a source containing a single unreadable file makes the
whole build return that file's I/O error. -/
theorem c4_witness :
    build [] Config.defaultConfig
      { destExists := true, removeErr := none, recreateOk := true,
        entries := [("a.txt".toList, FileOutcome.openErr 5)] } =
      .error (.ioErr 5) :=
  c4_read_error_aborts_build [] Config.defaultConfig _ [] ("a.txt".toList)
    (FileOutcome.openErr 5) [] (.ioErr 5) rfl rfl (fun _ _ h => nomatch h) rfl

/-- C5 counterexample: the claim has `build` remove the destination only
"if it exists" and then proceed; but `Shtola::build` calls
`fs::remove_dir_all` unconditionally, so with the clean flag set and a
*non-existent* destination the build aborts with `NotFound` — even though
the same read/run/write steps on the same source would succeed. -/
theorem c5_counterexample :
    build [] { Config.defaultConfig with clean := true }
        { destExists := false, removeErr := none, recreateOk := true,
          entries := [("hello.txt".toList, FileOutcome.text "hi".toList)] } =
      .error (.ioErr notFoundCode)
    ∧ (runBuildSteps [] { Config.defaultConfig with clean := true }
        [("hello.txt".toList, FileOutcome.text "hi".toList)]).isOk = true :=
  ⟨rfl, rfl⟩

/-- C5 (amended): with the clean flag set, `build` removes the destination
directory and recreates it empty; the removal fails when the destination
does not exist, and any failure to remove (including that case) or to
recreate is fatal and aborts the build before any source file is read —
while a successful clean phase continues with the read/run/write steps. -/
theorem c5_clean_failures_fatal :
    (∀ (stages : List (IRModel → IRModel)) (cfg : Config) (fs : FsState)
        (e : BuildErr),
       cleanStep cfg fs = .error e →
       ∀ ents, build stages cfg { fs with entries := ents } = .error e)
    ∧ (∀ (cfg : Config) (fs : FsState),
         cfg.clean = true → fs.destExists = false →
         cleanStep cfg fs = .error (.ioErr notFoundCode))
    ∧ (∀ (stages : List (IRModel → IRModel)) (cfg : Config) (fs : FsState),
         cleanStep cfg fs = .ok () →
         build stages cfg fs = runBuildSteps stages cfg fs.entries) := by
  refine ⟨?_, ?_, ?_⟩
  · intro stages cfg fs e hclean ents
    have hclean2 : cleanStep cfg { fs with entries := ents } = .error e := hclean
    unfold build
    rw [hclean2]
    rfl
  · intro cfg fs h1 h2
    simp [cleanStep, h1, h2]
  · intro stages cfg fs hclean
    unfold build
    rw [hclean]
    rfl

/-- Witness for C5 (amended): a clean-flagged build against a missing
destination directory aborts with `NotFound` before reading the (perfectly
readable) source file. -/
theorem c5_witness :
    build [] { Config.defaultConfig with clean := true }
        { destExists := false, removeErr := none, recreateOk := true,
          entries := [("a.txt".toList, FileOutcome.text "x".toList)] } =
      .error (.ioErr notFoundCode) :=
  c5_clean_failures_fatal.1 [] { Config.defaultConfig with clean := true }
    { destExists := false, removeErr := none, recreateOk := true,
      entries := [] }
    (.ioErr notFoundCode) rfl [("a.txt".toList, FileOutcome.text "x".toList)]

/-- C6: the front-matter splitter applied to `"---\nkey: value\n---\nBody"`
yields a record whose front matter maps `key` to `"value"` and whose
content is exactly `"Body"`; applied to any text not starting with the
marker line it yields null front matter and the text unchanged. -/
theorem c6_frontmatter_round_trip :
    readFileRecord true ("---\nkey: value\n---\nBody".toList) =
      some { frontmatter := Json.obj [("key", Json.str "value")],
             content := "Body".toList }
    ∧ (∀ text : List Char, marker.isPrefixOf text = false →
        readFileRecord true text =
          some { frontmatter := Json.null, content := text }) := by
  constructor
  · rfl
  · intro text h
    simp [readFileRecord, lexer, h, to_json]

/-- Witness for C6: text with no leading marker keeps null front matter and
its content unchanged. -/
theorem c6_witness :
    readFileRecord true ("Body".toList) =
      some { frontmatter := Json.null, content := "Body".toList } :=
  c6_frontmatter_round_trip.2 ("Body".toList) rfl

/-- C7 counterexample: the claim says appended ignore patterns are
deduplicated at every position; but `Shtola::ignores` uses `Vec::dedup`,
which only removes *consecutive* duplicates — after the calls
`ignores(["a"]); ignores(["b"]); ignores(["a"])` the stored list is
`["a", "b", "a"]`, which contains a duplicate. -/
theorem c7_counterexample :
    ignoresRuns [["a"], ["b"], ["a"]] = ["a", "b", "a"]
    ∧ noDupPatterns (ignoresRuns [["a"], ["b"], ["a"]]) = false :=
  ⟨rfl, rfl⟩

/-- C7 (amended): after any sequence of calls to the ignores setter, the
stored ignore-glob pattern list contains no two *adjacent* equal patterns
(`Vec::dedup` removes consecutive duplicates only); duplicates at
non-adjacent positions may remain. -/
theorem c7_ignores_adjacent_dedup :
    ∀ calls : List (List String), noAdjacentDup (ignoresRuns calls) = true :=
  fun calls => foldl_ignoresUpdate_noAdjacentDup calls [] rfl

/-- C8: `write_dir` writes exactly one operation per file record of the
final file-state — creating the parent directory of the joined destination
path and writing the record's content bytes verbatim; a record with empty
(tombstone) content is still written, as a zero-length file, and every
written operation stems from an entry of the mapping, so only absence of a
key suppresses output for a path. -/
theorem c8_write_dir_every_record :
    ∀ (files : List (RelPath × ShFile)) (dest : RelPath),
      (∀ p f, (p, f) ∈ files →
        ({ dirCreated := parentDir (joinPath dest p),
           filePath := joinPath dest p,
           bytes := f.content } : WriteOp) ∈ write_dir files dest)
      ∧ (∀ op, op ∈ write_dir files dest →
          ∃ p f, (p, f) ∈ files ∧
            op = { dirCreated := parentDir (joinPath dest p),
                   filePath := joinPath dest p, bytes := f.content })
      ∧ (∀ p, (p, ShFile.empty) ∈ files →
          ({ dirCreated := parentDir (joinPath dest p),
             filePath := joinPath dest p,
             bytes := [] } : WriteOp) ∈ write_dir files dest) := by
  intro files dest
  refine ⟨?_, ?_, ?_⟩
  · intro p f h
    exact List.mem_map_of_mem _ h
  · intro op hop
    obtain ⟨⟨p, f⟩, hmem, heq⟩ := List.mem_map.mp hop
    exact ⟨p, f, hmem, heq.symm⟩
  · intro p h
    exact List.mem_map_of_mem _ h

/-- Witness for C8: the tombstone-valued record for `a.txt` is still
written, as a zero-length file under the destination. -/
theorem c8_witness :
    ({ dirCreated := "out".toList, filePath := "out/a.txt".toList,
       bytes := [] } : WriteOp)
      ∈ write_dir [("a.txt".toList, ShFile.empty)] ("out".toList) :=
  (c8_write_dir_every_record [("a.txt".toList, ShFile.empty)]
      ("out".toList)).2.2 ("a.txt".toList) (List.Mem.head _)

/-- C9: the front-matter lexer returns a header/body pair for every input
except those that start with the marker line `"---\n"` and contain no
second occurrence of `"---\n"` after it: exactly on those inputs the search
for the closing marker fails and the `unwrap` panics instead of returning a
value or an error. -/
theorem c9_lexer_totality :
    ∀ text : List Char,
      lexer text = none ↔
        (marker.isPrefixOf text = true ∧
         ∀ i, marker.isPrefixOf ((text.drop 4).drop i) = false) := by
  intro text
  cases h : marker.isPrefixOf text with
  | false =>
      simp only [lexer, h, if_false, Bool.false_eq_true, false_and, iff_false]
      simp
  | true =>
      simp only [lexer, h, if_true, true_and]
      cases hf : findSub marker (text.drop 4) with
      | none =>
          simp only [hf]
          constructor
          · intro _
            exact (findSub_eq_none_iff _ _).mp hf
          · intro _; trivial
      | some i =>
          simp only [hf]
          constructor
          · intro hx
            exact absurd hx (by simp)
          · intro hall
            rw [(findSub_eq_none_iff _ _).mpr hall] at hf
            exact absurd hf (by simp)

/-- C10: the bundled Markdown stage panics on any IR whose file-state holds
a path without a file extension — the filter unwraps `extension()` on every
entry — and it is total (returns an IR) whenever every path in the incoming
file-state has an extension. -/
theorem c10_markdown_panics_without_extension :
    ∀ (render : List Char → List Char) (ir : IRModel),
      ((∃ p f, (p, f) ∈ ir.files ∧ extension p = none) →
        mdPlugin render ir = none)
      ∧ ((∀ p f, (p, f) ∈ ir.files → (extension p).isSome = true) →
          (mdPlugin render ir).isSome = true) := by
  intro render ir
  constructor
  · intro hex
    have hnone := (filterMd_eq_none_iff ir.files).mpr hex
    simp [mdPlugin, hnone]
  · intro hall
    cases hf : filterMd ir.files with
    | none =>
        obtain ⟨p, f, hmem, hext⟩ := (filterMd_eq_none_iff ir.files).mp hf
        have hx := hall p f hmem
        rw [hext] at hx
        simp at hx
    | some sel =>
        simp [mdPlugin, hf]

/-- Witness for C10: an IR holding the extension-less path `README` makes
the Markdown stage panic. -/
theorem c10_witness :
    mdPlugin (fun c => c)
      { files := [("README".toList, ShFile.empty)],
        config := Config.defaultConfig, metadata := [] } = none :=
  (c10_markdown_panics_without_extension (fun c => c)
      { files := [("README".toList, ShFile.empty)],
        config := Config.defaultConfig, metadata := [] }).1
    ⟨"README".toList, ShFile.empty, List.Mem.head _, rfl⟩
